/-
  Verification development for the `descargar_datos` repository
  (file reorganization and completeness-reconciliation subsystem).

  The Python sources are shallowly embedded:
  * filename/path parsing (src/descargar_datos/io/parsers.py,
    pipeline/faltantes_detectar.py) becomes pure functions on `String`
    and `List String` (a path is its list of components, the filename
    being the last component, mirroring `pathlib.Path.parts`); the
    character-level work is done on `List Char` so that every
    definition computes by kernel reduction;
  * the missing-years computation (pipeline/faltantes_detectar.py)
    becomes a pure function returning `Except String` (a raised
    `ValueError` is the `.error` case);
  * the relocation loops (pipeline/reorganizacion.py,
    pipeline/faltantes_descargar.py) become folds over an association
    list `List (Ruta × Nat)` mapping a path to an abstract file
    content; `shutil.move` is remove-source-insert-destination;
  * the ESGF catalog collaborator of `descargar_tarea` becomes an
    oracle datatype describing what the collaborator did (rows found,
    datasets materialized, or the description of a raised exception).

  Regexes are modelled character by character.  Python's `re` semantics
  are kept where the sources exercise them: `re.match` anchors at the
  start, `$` also matches just before one trailing newline, `.` matches
  everything except a newline.  `\w` and `\d` are modelled as the ASCII
  word and digit classes.
-/
import Mathlib

namespace DescargarDatos

/-- ASCII word character, model of the regex class `\w`. -/
def esWordChar (c : Char) : Bool :=
  c.isAlphanum || c = '_'

/-- Model of Python `str.split(sep)` for a one-character separator:
splits at every occurrence, keeping empty pieces, so the result always
has one more piece than there are separators. -/
def dividirEn (sep : Char) : List Char → List (List Char)
  | [] => [[]]
  | c :: resto =>
    match dividirEn sep resto with
    | [] => [[]]
    | grupo :: grupos =>
      if c = sep then [] :: grupo :: grupos else (c :: grupo) :: grupos

/-- Inverse of `dividirEn`: join pieces with the separator. -/
def unirCon (sep : Char) : List (List Char) → List Char
  | [] => []
  | [grupo] => grupo
  | grupo :: grupos => grupo ++ sep :: unirCon sep grupos

/-- Python's `$` anchor also matches just before one trailing newline:
removing that newline first lets the rest of a pattern be matched
against the end of the remaining text. -/
def quitarNewlineFinal (cs : List Char) : List Char :=
  match cs.reverse with
  | '\n' :: resto => resto.reverse
  | _ => cs

/-- Strip a trailing `.nc` (the literal `\.nc` ending the filename
patterns), returning the rest of the characters, or `none` when the
text does not end in `.nc`. -/
def quitarSufijoNC (cs : List Char) : Option (List Char) :=
  match cs.reverse with
  | 'c' :: 'n' :: '.' :: resto => some resto.reverse
  | _ => none

/-- Numeric value of an ASCII digit. -/
def valorDigito (c : Char) : Nat := c.toNat - 48

/-- Model of `PATRON_MEMBER_CARPETA = re.compile(r"^(s\d{4})-(r.+)$")`,
used with `.match` in parsers.py, reorganizacion.py and
faltantes_descargar.py.  Returns the two capture groups on success:
the segment must be, in full, `s` + 4 digits + `-` + `r` + at least one
further character, none of the `.+` characters being a newline. -/
def esMemberCarpeta? (s : String) : Option (String × String) :=
  match quitarNewlineFinal s.toList with
  | 's' :: a :: b :: c :: d :: '-' :: 'r' :: e :: resto =>
    if a.isDigit && b.isDigit && c.isDigit && d.isDigit
        && (e :: resto).all (fun ch => ch != '\n') then
      some (String.mk ['s', a, b, c, d], String.mk ('r' :: e :: resto))
    else none
  | _ => none

/-- Model of `PATRON_ANIO_MEMBER = re.compile(r"s(\d{4})")` used with
`.search`: scan left to right for an `s` followed by four digits and
return the year of the leftmost occurrence. -/
def buscarAnioMember : List Char → Option Nat
  | [] => none
  | c :: resto =>
    match c, resto with
    | 's', a :: b :: d :: e :: _ =>
      if a.isDigit && b.isDigit && d.isDigit && e.isDigit then
        some (1000 * valorDigito a + 100 * valorDigito b +
              10 * valorDigito d + valorDigito e)
      else buscarAnioMember resto
    | _, _ => buscarAnioMember resto

/-- Characters after the first `-`, if any (`member.split("-", 1)[1]`). -/
def trasPrimerGuion : List Char → Option (List Char)
  | [] => none
  | c :: resto => if c = '-' then some resto else trasPrimerGuion resto

/-- `member.split("-", 1)[1] if "-" in member else member` from
faltantes_detectar.py line 40. -/
def despuesDePrimerGuion (m : String) : String :=
  match trasPrimerGuion m.toList with
  | some resto => String.mk resto
  | none => m

/-- The capture groups of `PATRON_NOMBRE` that the sources consume. -/
structure MatchNombre where
  source : String
  member : String
deriving DecidableEq, Repr

/-- Model of `PATRON_NOMBRE.match(name)` for the 7-field pattern
`^(\w+)_(\w+)_([^_]+)_([^_]+)_([^_]+)_([^_]+)_([^_]+)\.nc$`
(faltantes_detectar.py lines 12-16, identical to `PATRON_NOMBRE_CMIP6`
in parsers.py).  After stripping an optional final newline the name
must end in `.nc`; splitting the rest on `_` into fields, the five
trailing `[^_]+` groups are forced to be exactly the last five fields
(they cannot contain `_`), each non-empty, and the remaining head must
decompose as `\w+_\w+`: all of its characters are word characters and
it carries an underscore that is neither its first nor its last
character.  The groups the sources read are `source` (5th-from-last
field) and `member` (3rd-from-last field). -/
def matchNombreCMIP6 (nombre : String) : Option MatchNombre :=
  match quitarSufijoNC (quitarNewlineFinal nombre.toList) with
  | none => none
  | some cuerpo =>
    let campos := dividirEn '_' cuerpo
    let n := campos.length
    if n < 7 then none
    else
      match campos.drop (n - 5) with
      | [src, exp, mem, grid, rango] =>
        let cabeza := unirCon '_' (campos.take (n - 5))
        if src ≠ [] && exp ≠ [] && mem ≠ [] && grid ≠ [] && rango ≠ [] &&
            cabeza.all esWordChar &&
            (cabeza.drop 1).dropLast.contains '_' then
          some ⟨String.mk src, String.mk mem⟩
        else none
      | _ => none

/-- `extraer_modelo_desde_nombre` (parsers.py lines 18-23): split the
filename on `_`; fewer than 3 parts is a failure, otherwise the part
at index 2 is the model.  The same check appears inline in
reorganizacion.py lines 44-52 and faltantes_descargar.py lines 138-142. -/
def extraer_modelo_desde_nombre (nombre : String) : Option String :=
  match dividirEn '_' nombre.toList with
  | _ :: _ :: modelo :: _ => some (String.mk modelo)
  | _ => none

/-- `extraer_subexp_y_ensamble_desde_ruta` (parsers.py lines 42-48):
walk the path components in reverse (the filename is the last
component, hence the first candidate) and return the two groups of the
first component matched by `PATRON_MEMBER_CARPETA`. -/
def extraer_subexp_y_ensamble_desde_ruta (partes : List String) :
    Option (String × String) :=
  partes.reverse.findSome? esMemberCarpeta?

/-- `Registro` (faltantes_detectar.py lines 20-24). -/
structure Registro where
  modelo : String
  ensamble : String
  anio : Nat
deriving DecidableEq, Repr

/-- `extraer_registro` (faltantes_detectar.py lines 27-41): match the
7-field name pattern; `modelo` is the `source` group; within the
`member` group search (unanchored) for `s` + 4 digits to obtain the
year; the ensemble is the member text after its first `-` (the whole
member when it has none). -/
def extraer_registro (nombre : String) : Option Registro :=
  match matchNombreCMIP6 nombre with
  | none => none
  | some mn =>
    match buscarAnioMember mn.member.toList with
    | none => none
    | some anio =>
      some ⟨mn.source, despuesDePrimerGuion mn.member, anio⟩

/-! ## Completeness reconciler (`calcular_faltantes`, faltantes_detectar.py lines 44-84) -/

/-- Minimum of a list of years (`min(anios_presentes)`), `none` on the
empty list just as Python's `min` raises there. -/
def minimoDe : List Nat → Option Nat
  | [] => none
  | x :: xs =>
    some (match minimoDe xs with
          | none => x
          | some m => if x ≤ m then x else m)

/-- Maximum of a list of years (`max(anios_presentes)`). -/
def maximoDe : List Nat → Option Nat
  | [] => none
  | x :: xs =>
    some (match maximoDe xs with
          | none => x
          | some m => if x ≤ m then m else x)

/-- Remove repeated elements, keeping the first occurrence of each and
skipping anything already in `vistos` — the key set of a Python dict
built by repeated `setdefault`, or a set built by repeated `add`. -/
def sinRepetidos {α : Type} [DecidableEq α] (vistos : List α) :
    List α → List α
  | [] => []
  | x :: resto =>
    if x ∈ vistos then sinRepetidos vistos resto
    else x :: sinRepetidos (x :: vistos) resto

/-- Ordering used by Python's `sorted(por_modelo_ensamble.items())`:
lexicographic on the (modelo, ensamble) pair. -/
def claveLe (a b : String × String) : Bool :=
  decide (a.1 < b.1) || (decide (a.1 = b.1) && ! decide (b.2 < a.2))

/-- Insert a key into a `claveLe`-sorted list of keys. -/
def insertarOrdenado (k : String × String) :
    List (String × String) → List (String × String)
  | [] => [k]
  | x :: resto =>
    if claveLe k x then k :: x :: resto else x :: insertarOrdenado k resto

/-- Insertion sort by `claveLe`; on distinct keys — the only use here —
it agrees with Python's `sorted`. -/
def ordenarClaves : List (String × String) → List (String × String)
  | [] => []
  | k :: resto => insertarOrdenado k (ordenarClaves resto)

/-- The group keys of `por_modelo_ensamble`, sorted: the distinct
(modelo, ensamble) pairs of the records. -/
def clavesDe (registros : List Registro) : List (String × String) :=
  ordenarClaves (sinRepetidos [] (registros.map fun r => (r.modelo, r.ensamble)))

/-- The distinct initialization years observed for one group: the set
`por_modelo_ensamble[(modelo, ensamble)]`. -/
def aniosDe (registros : List Registro) (m e : String) : List Nat :=
  sinRepetidos [] (registros.filterMap fun r =>
    if r.modelo = m ∧ r.ensamble = e then some r.anio else none)

/-- The message of the `ValueError` raised at faltantes_detectar.py
lines 61-64. -/
def mensajeRangoInvalido (modelo : String) (ini fin : Nat) : String :=
  "Rango invalido para " ++ modelo ++ ": inicio=" ++ toString ini ++
    ", fin=" ++ toString fin ++ "."

/-- One row of the missing-years report (the dict built at
faltantes_detectar.py lines 69-82).  The CSV stores the missing list
comma-joined; the row here keeps the sorted list itself, from which
the source derives both `anios_faltantes` (its length) and
`lista_anios_faltantes` (its join). -/
structure Fila where
  modelo : String
  ensamble : String
  anioMinDetectado : Nat
  anioMaxDetectado : Nat
  anioIniEsperado : Nat
  anioFinEsperado : Nat
  aniosPresentes : Nat
  aniosEsperados : Nat
  aniosFaltantesNum : Nat
  faltantes : List Nat
deriving DecidableEq, Repr

/-- The body of the `for (modelo, ensamble), anios_presentes in ...`
loop for one group: compute detected min/max, resolve the expected
bounds (explicit argument or detected bound), raise on an inverted
range, and otherwise produce the report row with
`faltantes = sorted(set(range(ini, fin + 1)) - anios_presentes)`
(filtering the ascending expected range keeps it sorted). -/
def filaDe (registros : List Registro) (ini? fin? : Option Nat)
    (clave : String × String) : Except String Fila :=
  match minimoDe (aniosDe registros clave.1 clave.2),
        maximoDe (aniosDe registros clave.1 clave.2) with
  | some minDet, some maxDet =>
    if fin?.getD maxDet < ini?.getD minDet then
      .error (mensajeRangoInvalido clave.1 (ini?.getD minDet) (fin?.getD maxDet))
    else
      .ok ⟨clave.1, clave.2, minDet, maxDet,
           ini?.getD minDet, fin?.getD maxDet,
           (aniosDe registros clave.1 clave.2).length,
           (List.range' (ini?.getD minDet)
             (fin?.getD maxDet + 1 - ini?.getD minDet)).length,
           ((List.range' (ini?.getD minDet)
              (fin?.getD maxDet + 1 - ini?.getD minDet)).filter
             (fun y => ! decide (y ∈ aniosDe registros clave.1 clave.2))).length,
           (List.range' (ini?.getD minDet)
             (fin?.getD maxDet + 1 - ini?.getD minDet)).filter
             (fun y => ! decide (y ∈ aniosDe registros clave.1 clave.2))⟩
  | _, _ =>
    -- Python's `min()` over an empty set raises `ValueError`; a key
    -- produced by the grouping always owns at least one year, so this
    -- branch is unreachable from `calcular_faltantes`.
    .error "min() arg is an empty sequence"

/-- Run the group loop over the sorted keys; the first raised error
aborts the whole computation, as an uncaught Python exception would. -/
def procesarClaves (registros : List Registro) (ini? fin? : Option Nat) :
    List (String × String) → Except String (List Fila)
  | [] => .ok []
  | clave :: resto =>
    match filaDe registros ini? fin? clave with
    | .error e => .error e
    | .ok fila =>
      match procesarClaves registros ini? fin? resto with
      | .error e => .error e
      | .ok filas => .ok (fila :: filas)

/-- `calcular_faltantes` (faltantes_detectar.py lines 44-84): group the
records by (modelo, ensamble) and emit one report row per group, over
the sorted keys. -/
def calcular_faltantes (registros : List Registro) (ini? fin? : Option Nat) :
    Except String (List Fila) :=
  procesarClaves registros ini? fin? (clavesDe registros)

/-! ## File relocation engine (reorganizacion.py lines 36-91,
faltantes_descargar.py lines 130-171) -/

/-- A path is its list of components (`pathlib.Path.parts`); the
filename is the last component. -/
abbrev Ruta := List String

/-- The modelled filesystem: an association list from a path to an
abstract file content (a number standing for the bytes). -/
abbrev Sistema := List (Ruta × Nat)

/-- Content stored at a path, if any. -/
def buscar : Sistema → Ruta → Option Nat
  | [], _ => none
  | (q, c) :: resto, p => if q = p then some c else buscar resto p

/-- Remove a path (every binding of it) from the filesystem. -/
def borrar : Sistema → Ruta → Sistema
  | [], _ => []
  | (q, c) :: resto, p =>
    if q = p then borrar resto p else (q, c) :: borrar resto p

/-- Filename of a path: its last component (`Path.name`). -/
def nombreDe (archivo : Ruta) : String :=
  match archivo.reverse with
  | [] => ""
  | nombre :: _ => nombre

/-- The canonical destination both relocation loops compute for a
discovered file: `salida / modelo / ensamble / sYYYY / nombre`.
It exists when the filename has at least 3 underscore fields (model =
3rd field, reorganizacion.py lines 44-52, faltantes_descargar.py lines
138-142) and some path component, scanned in reverse, matches
`PATRON_MEMBER_CARPETA` (reorganizacion.py lines 54-68,
faltantes_descargar.py lines 144-154); both loops inline exactly the
checks of `extraer_modelo_desde_nombre` and
`extraer_subexp_y_ensamble_desde_ruta`. -/
def destinoDe (salida : Ruta) (archivo : Ruta) : Option Ruta :=
  match extraer_modelo_desde_nombre (nombreDe archivo) with
  | none => none
  | some modelo =>
    match extraer_subexp_y_ensamble_desde_ruta archivo with
    | none => none
    | some (subExp, ensamble) =>
      some (salida ++ [modelo, ensamble, subExp, nombreDe archivo])

/-- Counters returned by `mover_nc_cache_a_salida`. -/
structure Contadores3 where
  movidos : Nat
  omitidos : Nat
  errores : Nat
deriving DecidableEq, Repr

/-- Counters printed by `reorganizar_datos` (its combined
`Errores/Saltados` counter merges skips and failures). -/
structure Contadores2 where
  movidos : Nat
  errores : Nat
deriving DecidableEq, Repr

/-- One iteration of the loop of `mover_nc_cache_a_salida`
(faltantes_descargar.py lines 136-169): unparseable name or path →
`errores`; destination already present → `omitidos` (file untouched);
otherwise move (remove source, add destination) → `movidos`; a
`shutil.move` whose source has vanished raises, is caught, and counts
in `errores`.  Directory creation (line 158) has no counterpart in the
path→content map. -/
def paso_mover (salida : Ruta) (st : Sistema × Contadores3)
    (archivo : Ruta) : Sistema × Contadores3 :=
  match destinoDe salida archivo with
  | none => (st.1, { st.2 with errores := st.2.errores + 1 })
  | some destino =>
    match buscar st.1 destino with
    | some _ => (st.1, { st.2 with omitidos := st.2.omitidos + 1 })
    | none =>
      match buscar st.1 archivo with
      | some contenido =>
        ((destino, contenido) :: borrar st.1 archivo,
         { st.2 with movidos := st.2.movidos + 1 })
      | none => (st.1, { st.2 with errores := st.2.errores + 1 })

/-- `mover_nc_cache_a_salida` (faltantes_descargar.py lines 130-171)
over an explicit list of discovered `.nc` files (the `rglob` result). -/
def mover_nc_cache_a_salida (salida : Ruta) (fs : Sistema)
    (archivos : List Ruta) : Sistema × Contadores3 :=
  archivos.foldl (paso_mover salida) (fs, ⟨0, 0, 0⟩)

/-- One iteration of the loop of `reorganizar_datos`
(reorganizacion.py lines 41-84): identical to `paso_mover` except that
an already-existing destination is counted in the combined `errores`
counter (line 76) rather than in a separate skipped counter. -/
def paso_reorganizar (destino : Ruta) (st : Sistema × Contadores2)
    (archivo : Ruta) : Sistema × Contadores2 :=
  match destinoDe destino archivo with
  | none => (st.1, { st.2 with errores := st.2.errores + 1 })
  | some destinoArchivo =>
    match buscar st.1 destinoArchivo with
    | some _ => (st.1, { st.2 with errores := st.2.errores + 1 })
    | none =>
      match buscar st.1 archivo with
      | some contenido =>
        ((destinoArchivo, contenido) :: borrar st.1 archivo,
         { st.2 with movidos := st.2.movidos + 1 })
      | none => (st.1, { st.2 with errores := st.2.errores + 1 })

/-- The per-file loop of `reorganizar_datos` (reorganizacion.py lines
41-91) over the discovered files. -/
def reorganizar_datos (destino : Ruta) (fs : Sistema)
    (archivos : List Ruta) : Sistema × Contadores2 :=
  archivos.foldl (paso_reorganizar destino) (fs, ⟨0, 0⟩)

/-! ## Task download classifier (`descargar_tarea`,
faltantes_descargar.py lines 88-127) -/

/-- What `catalogo.to_dataset_dict()` (and the surrounding statements
after the search) did: raised, or materialized `n` datasets. -/
inductive ResultadoMaterializar where
  | excepcion (descripcion : String)
  | datasets (n : Nat)
deriving DecidableEq, Repr

/-- What the ESGF collaborator did for one task: `ESGFCatalog()` /
`search` raised, or the search returned `n` catalog rows followed by
the materialization behaviour (only consulted when `n > 0`).  An
exception's `descripcion` stands for `f"{type(exc).__name__}: {exc}"`. -/
inductive ResultadoBusqueda where
  | excepcion (descripcion : String)
  | filas (n : Nat) (despues : ResultadoMaterializar)
deriving DecidableEq, Repr

/-- `descargar_tarea` (faltantes_descargar.py lines 88-127): classify
one fetch attempt into `(estado, detalle)`.  Every collaborator
behaviour, exceptions included, yields a normal return — the `except`
clause converts any exception into the `error` state. -/
def descargar_tarea : ResultadoBusqueda → String × String
  | .excepcion d => ("error", d)
  | .filas n despues =>
    if n = 0 then
      ("sin_resultados", "No hay resultados en ESGF para esa combinacion.")
    else
      match despues with
      | .excepcion d => ("error", d)
      | .datasets m =>
        if m = 0 then
          ("sin_descarga", "La busqueda devolvio filas, pero no se pudo descargar.")
        else
          ("descargado", "Datasets descargados: " ++ toString m)

/-! ## Catalog key reconciler (`DescargadorDatosESGF._detectar_fallos`,
descargar_datos.py lines 246-256, and the conditional CSV write of
`_descargar_datasets`, lines 225-235) -/

/-- `_detectar_fallos`: the requested catalog keys minus the retrieved
ones. -/
def detectar_fallos (clavesCatalogo clavesDescargadas : Finset String) :
    Finset String :=
  clavesCatalogo \ clavesDescargadas

/-- `_descargar_datasets` writes the failure CSV exactly when
`self._claves_fallidas` is truthy, i.e. non-empty. -/
def registraFallosCSV (clavesCatalogo clavesDescargadas : Finset String) :
    Bool :=
  decide (detectar_fallos clavesCatalogo clavesDescargadas ≠ ∅)

/-! ## The claim C3's own reading of member-identity extraction -/

/-- Member identity as the spec's words describe it: scan candidate
strings — the filename's `member_id` field first, then the path
segments in reverse — and return the groups of the first candidate
that fully matches `^s(\d{4})-(r.+)$`; `none` when no candidate fully
matches.  Written from the spec, to be compared with the source
functions. -/
def extract_member_identity_spec (archivo : Ruta) : Option (String × String) :=
  let candidatos :=
    (match matchNombreCMIP6 (nombreDe archivo) with
     | some mn => [mn.member]
     | none => []) ++ archivo.reverse
  candidatos.findSome? esMemberCarpeta?

/-! ## Helper lemmas -/

/-- Each `mover_nc_cache_a_salida` iteration increments exactly one of
the three counters. -/
theorem paso_mover_suma (salida : Ruta) (st : Sistema × Contadores3)
    (archivo : Ruta) :
    (paso_mover salida st archivo).2.movidos +
      (paso_mover salida st archivo).2.omitidos +
      (paso_mover salida st archivo).2.errores =
    st.2.movidos + st.2.omitidos + st.2.errores + 1 := by
  unfold paso_mover
  split
  · simp
    omega
  · split
    · simp
      omega
    · split
      · simp
        omega
      · simp
        omega

/-- Each `reorganizar_datos` iteration increments exactly one of the
two counters. -/
theorem paso_reorganizar_suma (destino : Ruta) (st : Sistema × Contadores2)
    (archivo : Ruta) :
    (paso_reorganizar destino st archivo).2.movidos +
      (paso_reorganizar destino st archivo).2.errores =
    st.2.movidos + st.2.errores + 1 := by
  unfold paso_reorganizar
  split
  · simp
    omega
  · split
    · simp
      omega
    · split
      · simp
        omega
      · simp
        omega

theorem mover_suma_fold (salida : Ruta) (archivos : List Ruta) :
    ∀ (fs : Sistema) (c : Contadores3),
      (List.foldl (paso_mover salida) (fs, c) archivos).2.movidos +
        (List.foldl (paso_mover salida) (fs, c) archivos).2.omitidos +
        (List.foldl (paso_mover salida) (fs, c) archivos).2.errores =
      c.movidos + c.omitidos + c.errores + archivos.length := by
  induction archivos with
  | nil => intro fs c; simp
  | cons a resto ih =>
    intro fs c
    simp only [List.foldl_cons, List.length_cons]
    have h1 := paso_mover_suma salida (fs, c) a
    have h2 := ih (paso_mover salida (fs, c) a).1 (paso_mover salida (fs, c) a).2
    rw [Prod.mk.eta] at h2
    dsimp only at h1
    omega

theorem reorganizar_suma_fold (destino : Ruta) (archivos : List Ruta) :
    ∀ (fs : Sistema) (c : Contadores2),
      (List.foldl (paso_reorganizar destino) (fs, c) archivos).2.movidos +
        (List.foldl (paso_reorganizar destino) (fs, c) archivos).2.errores =
      c.movidos + c.errores + archivos.length := by
  induction archivos with
  | nil => intro fs c; simp
  | cons a resto ih =>
    intro fs c
    simp only [List.foldl_cons, List.length_cons]
    have h1 := paso_reorganizar_suma destino (fs, c) a
    have h2 := ih (paso_reorganizar destino (fs, c) a).1
      (paso_reorganizar destino (fs, c) a).2
    rw [Prod.mk.eta] at h2
    dsimp only at h1
    omega

theorem buscar_borrar (fs : Sistema) (p q : Ruta) :
    buscar (borrar fs p) q = if q = p then none else buscar fs q := by
  induction fs with
  | nil => simp [borrar, buscar]
  | cons par resto ih =>
    obtain ⟨r, c⟩ := par
    by_cases hrp : r = p <;> by_cases hqp : q = p <;> by_cases hrq : r = q <;>
      simp_all [borrar, buscar]

/-- A step of the mover loop never disturbs the binding of any path
other than the processed source: a present path keeps its content. -/
theorem paso_mover_conserva (salida : Ruta) (st : Sistema × Contadores3)
    (archivo p : Ruta) (x : Nat) (hp : buscar st.1 p = some x)
    (hne : p ≠ archivo) :
    buscar (paso_mover salida st archivo).1 p = some x := by
  unfold paso_mover
  split
  · exact hp
  · rename_i destino hdes
    split
    · exact hp
    · rename_i hnodest
      split
      · rename_i contenido hsrc
        have hdp : ¬ destino = p := by
          intro h
          rw [h, hp] at hnodest
          exact Option.noConfusion hnodest
        simp [buscar, hdp, buscar_borrar, hne, hp]
      · exact hp

/-- Same frame property for the reorganizar loop. -/
theorem paso_reorganizar_conserva (destRaiz : Ruta)
    (st : Sistema × Contadores2) (archivo p : Ruta) (x : Nat)
    (hp : buscar st.1 p = some x) (hne : p ≠ archivo) :
    buscar (paso_reorganizar destRaiz st archivo).1 p = some x := by
  unfold paso_reorganizar
  split
  · exact hp
  · rename_i destino hdes
    split
    · exact hp
    · rename_i hnodest
      split
      · rename_i contenido hsrc
        have hdp : ¬ destino = p := by
          intro h
          rw [h, hp] at hnodest
          exact Option.noConfusion hnodest
        simp [buscar, hdp, buscar_borrar, hne, hp]
      · exact hp

/-- Over a whole mover run, any path that is not among the discovered
sources keeps its content. -/
theorem mover_fold_conserva (salida : Ruta) (archivos : List Ruta) :
    ∀ (fs : Sistema) (c : Contadores3) (p : Ruta) (x : Nat),
      p ∉ archivos → buscar fs p = some x →
      buscar (List.foldl (paso_mover salida) (fs, c) archivos).1 p = some x := by
  induction archivos with
  | nil => intro fs c p x _ hp; exact hp
  | cons a resto ih =>
    intro fs c p x hnm hp
    simp only [List.foldl_cons]
    have h1 : buscar (paso_mover salida (fs, c) a).1 p = some x :=
      paso_mover_conserva salida (fs, c) a p x hp
        (fun h => hnm (by simp [h]))
    have h2 := ih (paso_mover salida (fs, c) a).1
      (paso_mover salida (fs, c) a).2 p x
      (fun h => hnm (List.mem_cons_of_mem _ h)) h1
    rwa [Prod.mk.eta] at h2

/-- Over a whole reorganizar run, any path that is not among the
discovered sources keeps its content. -/
theorem reorganizar_fold_conserva (destRaiz : Ruta) (archivos : List Ruta) :
    ∀ (fs : Sistema) (c : Contadores2) (p : Ruta) (x : Nat),
      p ∉ archivos → buscar fs p = some x →
      buscar (List.foldl (paso_reorganizar destRaiz) (fs, c) archivos).1 p =
        some x := by
  induction archivos with
  | nil => intro fs c p x _ hp; exact hp
  | cons a resto ih =>
    intro fs c p x hnm hp
    simp only [List.foldl_cons]
    have h1 : buscar (paso_reorganizar destRaiz (fs, c) a).1 p = some x :=
      paso_reorganizar_conserva destRaiz (fs, c) a p x hp
        (fun h => hnm (by simp [h]))
    have h2 := ih (paso_reorganizar destRaiz (fs, c) a).1
      (paso_reorganizar destRaiz (fs, c) a).2 p x
      (fun h => hnm (List.mem_cons_of_mem _ h)) h1
    rwa [Prod.mk.eta] at h2

/-- When the computed destination of a file is already occupied, the
mover step only counts the file as skipped and leaves every binding of
the filesystem as it was. -/
theorem paso_mover_omite (salida : Ruta) (fs : Sistema) (c : Contadores3)
    (archivo destino : Ruta) (x : Nat)
    (hdes : destinoDe salida archivo = some destino)
    (hx : buscar fs destino = some x) :
    paso_mover salida (fs, c) archivo =
      (fs, { c with omitidos := c.omitidos + 1 }) := by
  simp [paso_mover, hdes, hx]

/-- Same skip behaviour in the reorganizar loop, counted in its
combined errores/saltados counter. -/
theorem paso_reorganizar_omite (destRaiz : Ruta) (fs : Sistema)
    (c : Contadores2) (archivo destino : Ruta) (x : Nat)
    (hdes : destinoDe destRaiz archivo = some destino)
    (hx : buscar fs destino = some x) :
    paso_reorganizar destRaiz (fs, c) archivo =
      (fs, { c with errores := c.errores + 1 }) := by
  simp [paso_reorganizar, hdes, hx]

/-- A mover step on an unparseable file only counts an error. -/
theorem paso_mover_error_nombre (salida : Ruta) (fs : Sistema)
    (c : Contadores3) (archivo : Ruta)
    (hdes : destinoDe salida archivo = none) :
    paso_mover salida (fs, c) archivo =
      (fs, { c with errores := c.errores + 1 }) := by
  simp [paso_mover, hdes]

/-- A mover step with a free destination and a present source moves the
file: the source binding disappears and the destination binding takes
its content. -/
theorem paso_mover_mueve (salida : Ruta) (fs : Sistema) (c : Contadores3)
    (archivo destino : Ruta) (contenido : Nat)
    (hdes : destinoDe salida archivo = some destino)
    (hnod : buscar fs destino = none)
    (hsrc : buscar fs archivo = some contenido) :
    paso_mover salida (fs, c) archivo =
      ((destino, contenido) :: borrar fs archivo,
       { c with movidos := c.movidos + 1 }) := by
  simp [paso_mover, hdes, hnod, hsrc]

/-- Once a parseable file's destination is occupied or its source is
still present, after the whole run its destination is occupied —
provided no destination path doubles as a discovered source. -/
theorem mover_destino_queda (salida : Ruta) (archivos : List Ruta) :
    ∀ (fs : Sistema) (c : Contadores3) (f d : Ruta),
      destinoDe salida f = some d → d ∉ archivos →
      (buscar fs d ≠ none ∨ (f ∈ archivos ∧ buscar fs f ≠ none)) →
      buscar (List.foldl (paso_mover salida) (fs, c) archivos).1 d ≠ none := by
  induction archivos with
  | nil =>
    intro fs c f d _ _ hP
    rcases hP with h | ⟨hf, _⟩
    · exact h
    · exact absurd hf (List.not_mem_nil f)
  | cons a resto ih =>
    intro fs c f d hdes hdnm hP
    simp only [List.foldl_cons]
    have hdna : d ≠ a := fun h => hdnm (by simp [h])
    have hdnr : d ∉ resto := fun h => hdnm (List.mem_cons_of_mem _ h)
    rcases hcase : buscar fs d with _ | x
    · -- destination not yet occupied: the precondition gives a live source
      have hfx : f ∈ a :: resto ∧ buscar fs f ≠ none := by
        rcases hP with h | h
        · exact absurd hcase h
        · exact h
      obtain ⟨hf, hsrc⟩ := hfx
      obtain ⟨y, hy⟩ := Option.ne_none_iff_exists'.mp hsrc
      by_cases hfa : f = a
      · subst hfa
        have hstep := paso_mover_mueve salida fs c f d y hdes hcase hy
        have h1 : buscar (paso_mover salida (fs, c) f).1 d = some y := by
          rw [hstep]; simp [buscar]
        have h2 := ih (paso_mover salida (fs, c) f).1
          (paso_mover salida (fs, c) f).2 f d hdes hdnr
          (Or.inl (by simp [h1]))
        rwa [Prod.mk.eta] at h2
      · have hfr : f ∈ resto := by
          rcases List.mem_cons.mp hf with h | h
          · exact absurd h hfa
          · exact h
        have h1 : buscar (paso_mover salida (fs, c) a).1 f = some y :=
          paso_mover_conserva salida (fs, c) a f y hy hfa
        have h2 := ih (paso_mover salida (fs, c) a).1
          (paso_mover salida (fs, c) a).2 f d hdes hdnr
          (Or.inr ⟨hfr, by simp [h1]⟩)
        rwa [Prod.mk.eta] at h2
    · -- destination already occupied: the step preserves it
      have h1 : buscar (paso_mover salida (fs, c) a).1 d = some x :=
        paso_mover_conserva salida (fs, c) a d x hcase hdna
      have h2 := ih (paso_mover salida (fs, c) a).1
        (paso_mover salida (fs, c) a).2 f d hdes hdnr
        (Or.inl (by simp [h1]))
      rwa [Prod.mk.eta] at h2

/-- A mover run in which every parseable file already finds its
destination occupied changes nothing: no file moves, each parseable
file is skipped, each unparseable file is counted as an error. -/
theorem mover_pasada_omite_todo (salida : Ruta) (archivos : List Ruta) :
    ∀ (fs : Sistema) (c : Contadores3),
      (∀ f ∈ archivos, ∀ d, destinoDe salida f = some d →
        buscar fs d ≠ none) →
      List.foldl (paso_mover salida) (fs, c) archivos =
        (fs, ⟨c.movidos,
              c.omitidos +
                (archivos.filter fun f => (destinoDe salida f).isSome).length,
              c.errores +
                (archivos.filter fun f => (destinoDe salida f).isNone).length⟩) := by
  induction archivos with
  | nil => intro fs c _; simp
  | cons a resto ih =>
    intro fs c hocc
    simp only [List.foldl_cons]
    rcases hdes : destinoDe salida a with _ | d
    · rw [paso_mover_error_nombre salida fs c a hdes]
      rw [ih fs _ (fun f hf d hd => hocc f (List.mem_cons_of_mem _ hf) d hd)]
      simp only [List.filter_cons, hdes, Option.isSome_none, Option.isNone_none,
        Bool.false_eq_true, if_false, if_true, List.length_cons]
      simp only [Prod.mk.injEq, Contadores3.mk.injEq, true_and, and_true]
      omega
    · obtain ⟨x, hx⟩ := Option.ne_none_iff_exists'.mp
        (hocc a (List.mem_cons_self a resto) d hdes)
      rw [paso_mover_omite salida fs c a d x hdes hx]
      rw [ih fs _ (fun f hf d' hd' => hocc f (List.mem_cons_of_mem _ hf) d' hd')]
      simp only [List.filter_cons, hdes, Option.isSome_some, Option.isNone_some,
        Bool.false_eq_true, if_false, if_true, List.length_cons]
      simp only [Prod.mk.injEq, Contadores3.mk.injEq, true_and, and_true]
      omega

theorem mem_sinRepetidos {α : Type} [DecidableEq α] (l : List α) :
    ∀ (vistos : List α) (x : α),
      x ∈ sinRepetidos vistos l ↔ x ∈ l ∧ x ∉ vistos := by
  induction l with
  | nil => intro vistos x; simp [sinRepetidos]
  | cons a resto ih =>
    intro vistos x
    by_cases ha : a ∈ vistos
    · rw [sinRepetidos, if_pos ha, ih]
      constructor
      · rintro ⟨hx, hnv⟩
        exact ⟨List.mem_cons_of_mem _ hx, hnv⟩
      · rintro ⟨hor, hnv⟩
        rcases List.mem_cons.mp hor with h | h
        · subst h; exact absurd ha hnv
        · exact ⟨h, hnv⟩
    · rw [sinRepetidos, if_neg ha]
      constructor
      · intro hx
        rcases List.mem_cons.mp hx with h | h
        · subst h; exact ⟨List.mem_cons_self _ _, ha⟩
        · obtain ⟨h1, h2⟩ := (ih (a :: vistos) x).mp h
          exact ⟨List.mem_cons_of_mem _ h1,
            fun hv => h2 (List.mem_cons_of_mem _ hv)⟩
      · rintro ⟨hor, hnv⟩
        by_cases hxa : x = a
        · subst hxa; exact List.mem_cons_self _ _
        · rcases List.mem_cons.mp hor with h | h
          · exact absurd h hxa
          · refine List.mem_cons_of_mem _ ((ih (a :: vistos) x).mpr ⟨h, ?_⟩)
            intro hv
            rcases List.mem_cons.mp hv with h' | h'
            · exact hxa h'
            · exact hnv h'

theorem mem_insertarOrdenado (k x : String × String)
    (l : List (String × String)) :
    x ∈ insertarOrdenado k l ↔ x = k ∨ x ∈ l := by
  induction l with
  | nil => simp [insertarOrdenado]
  | cons a resto ih =>
    rw [insertarOrdenado]
    by_cases h : claveLe k a
    · rw [if_pos h]; simp [List.mem_cons]
    · rw [if_neg h]; simp [List.mem_cons, ih]; tauto

theorem mem_ordenarClaves (x : String × String)
    (l : List (String × String)) :
    x ∈ ordenarClaves l ↔ x ∈ l := by
  induction l with
  | nil => simp [ordenarClaves]
  | cons a resto ih => simp [ordenarClaves, mem_insertarOrdenado, ih]

theorem mem_clavesDe (registros : List Registro) (k : String × String) :
    k ∈ clavesDe registros ↔
      ∃ r ∈ registros, (r.modelo, r.ensamble) = k := by
  unfold clavesDe
  rw [mem_ordenarClaves, mem_sinRepetidos]
  simp [List.mem_map]

theorem mem_aniosDe (registros : List Registro) (m e : String) (y : Nat) :
    y ∈ aniosDe registros m e ↔ (⟨m, e, y⟩ : Registro) ∈ registros := by
  unfold aniosDe
  rw [mem_sinRepetidos]
  simp only [List.mem_filterMap, List.not_mem_nil, not_false_iff, and_true]
  constructor
  · rintro ⟨⟨rm, re, ra⟩, hr, hf⟩
    by_cases hc : rm = m ∧ re = e
    · obtain ⟨h1, h2⟩ := hc
      subst h1; subst h2
      simp only [if_pos (And.intro rfl rfl)] at hf
      injection hf with hf
      subst hf
      exact hr
    · rw [if_neg hc] at hf
      exact Option.noConfusion hf
  · intro hr
    exact ⟨⟨m, e, y⟩, hr, by simp⟩

theorem minimoDe_eq_none (l : List Nat) : minimoDe l = none ↔ l = [] := by
  cases l <;> simp [minimoDe]

theorem minimoDe_spec (l : List Nat) :
    ∀ (m : Nat), minimoDe l = some m → m ∈ l ∧ ∀ y ∈ l, m ≤ y := by
  induction l with
  | nil => intro m h; exact Option.noConfusion h
  | cons x resto ih =>
    intro m h
    rw [minimoDe] at h
    injection h with h
    rcases hr : minimoDe resto with _ | mr
    · rw [hr] at h
      subst h
      have : resto = [] := (minimoDe_eq_none resto).mp hr
      subst this
      exact ⟨List.mem_cons_self _ _, by simp⟩
    · rw [hr] at h
      subst h
      obtain ⟨hmem, hle⟩ := ih mr hr
      constructor
      · show (if x ≤ mr then x else mr) ∈ x :: resto
        by_cases hx : x ≤ mr
        · rw [if_pos hx]; exact List.mem_cons_self _ _
        · rw [if_neg hx]; exact List.mem_cons_of_mem _ hmem
      · intro y hy
        show (if x ≤ mr then x else mr) ≤ y
        rcases List.mem_cons.mp hy with h | h
        · rw [h]
          by_cases hx : x ≤ mr
          · rw [if_pos hx]
          · rw [if_neg hx]; omega
        · have hy2 := hle y h
          by_cases hx : x ≤ mr
          · rw [if_pos hx]; omega
          · rw [if_neg hx]; omega

theorem maximoDe_spec (l : List Nat) :
    ∀ (m : Nat), maximoDe l = some m → m ∈ l ∧ ∀ y ∈ l, y ≤ m := by
  induction l with
  | nil => intro m h; exact Option.noConfusion h
  | cons x resto ih =>
    intro m h
    rw [maximoDe] at h
    injection h with h
    rcases hr : maximoDe resto with _ | mr
    · rw [hr] at h
      subst h
      have : resto = [] := by
        cases resto with
        | nil => rfl
        | cons z zs => rw [maximoDe] at hr; exact Option.noConfusion hr
      subst this
      exact ⟨List.mem_cons_self _ _, by simp⟩
    · rw [hr] at h
      subst h
      obtain ⟨hmem, hle⟩ := ih mr hr
      constructor
      · show (if x ≤ mr then mr else x) ∈ x :: resto
        by_cases hx : x ≤ mr
        · rw [if_pos hx]; exact List.mem_cons_of_mem _ hmem
        · rw [if_neg hx]; exact List.mem_cons_self _ _
      · intro y hy
        show y ≤ (if x ≤ mr then mr else x)
        rcases List.mem_cons.mp hy with h | h
        · rw [h]
          by_cases hx : x ≤ mr
          · rw [if_pos hx]; omega
          · rw [if_neg hx]
        · have hy2 := hle y h
          by_cases hx : x ≤ mr
          · rw [if_pos hx]; omega
          · rw [if_neg hx]; omega

theorem minimoDe_isSome_of_ne_nil (l : List Nat) (h : l ≠ []) :
    ∃ m, minimoDe l = some m := by
  cases l with
  | nil => exact absurd rfl h
  | cons x resto => exact ⟨_, rfl⟩

theorem maximoDe_isSome_of_ne_nil (l : List Nat) (h : l ≠ []) :
    ∃ m, maximoDe l = some m := by
  cases l with
  | nil => exact absurd rfl h
  | cons x resto => exact ⟨_, rfl⟩

/-- What a successfully produced report row contains, read off the
branch structure of `filaDe`. -/
theorem filaDe_ok (registros : List Registro) (ini? fin? : Option Nat)
    (clave : String × String) (fila : Fila)
    (h : filaDe registros ini? fin? clave = .ok fila) :
    ∃ minDet maxDet,
      minimoDe (aniosDe registros clave.1 clave.2) = some minDet ∧
      maximoDe (aniosDe registros clave.1 clave.2) = some maxDet ∧
      fila.modelo = clave.1 ∧ fila.ensamble = clave.2 ∧
      fila.anioIniEsperado = ini?.getD minDet ∧
      fila.anioFinEsperado = fin?.getD maxDet ∧
      fila.anioIniEsperado ≤ fila.anioFinEsperado ∧
      fila.faltantes =
        (List.range' fila.anioIniEsperado
          (fila.anioFinEsperado + 1 - fila.anioIniEsperado)).filter
          (fun y => ! decide (y ∈ aniosDe registros clave.1 clave.2)) := by
  unfold filaDe at h
  rcases hmin : minimoDe (aniosDe registros clave.1 clave.2) with _ | minDet <;>
    rcases hmax : maximoDe (aniosDe registros clave.1 clave.2) with _ | maxDet <;>
    rw [hmin, hmax] at h <;> dsimp only at h
  · exact Except.noConfusion h
  · exact Except.noConfusion h
  · exact Except.noConfusion h
  · by_cases hlt : (fin?.getD maxDet) < (ini?.getD minDet)
    · rw [if_pos hlt] at h
      exact Except.noConfusion h
    · rw [if_neg hlt] at h
      injection h with h
      subst h
      exact ⟨minDet, maxDet, rfl, rfl, rfl, rfl, rfl, rfl,
        Nat.le_of_not_lt hlt, rfl⟩

/-- Each row of a successful `procesarClaves` run comes from a key of
the processed list. -/
theorem procesarClaves_ok (registros : List Registro)
    (ini? fin? : Option Nat) :
    ∀ (ks : List (String × String)) (filas : List Fila),
      procesarClaves registros ini? fin? ks = .ok filas →
      ∀ fila ∈ filas, ∃ k ∈ ks, filaDe registros ini? fin? k = .ok fila := by
  intro ks
  induction ks with
  | nil =>
    intro filas h fila hf
    injection h with h
    subst h
    exact absurd hf (List.not_mem_nil fila)
  | cons k resto ih =>
    intro filas h fila hf
    unfold procesarClaves at h
    rcases h1 : filaDe registros ini? fin? k with e1 | fk <;> rw [h1] at h
    · exact Except.noConfusion h
    · rcases h2 : procesarClaves registros ini? fin? resto with e2 | fs <;>
        rw [h2] at h
      · exact Except.noConfusion h
      · injection h with h
        subst h
        rcases List.mem_cons.mp hf with hcabeza | hcola
        · subst hcabeza
          exact ⟨k, List.mem_cons_self _ _, h1⟩
        · obtain ⟨k', hk', hfk'⟩ := ih fs h2 fila hcola
          exact ⟨k', List.mem_cons_of_mem _ hk', hfk'⟩

/-! ## Claim theorems -/

/-- C8: for every filename with at least 3 underscore-separated fields,
`extraer_modelo_desde_nombre` returns the field at index 2 — the split
is not consulted any further, so the remaining fields need not conform
to the 7-field grammar — and for fewer than 3 fields it returns
`none`. -/
theorem C8_extraer_modelo (nombre : String) :
    extraer_modelo_desde_nombre nombre =
      ((dividirEn '_' nombre.toList)[2]?).map String.mk ∧
    (extraer_modelo_desde_nombre nombre = none ↔
      (dividirEn '_' nombre.toList).length < 3) := by
  unfold extraer_modelo_desde_nombre
  rcases dividirEn '_' nombre.toList with _ | ⟨a, _ | ⟨b, _ | ⟨c, resto⟩⟩⟩ <;>
    first
    | (simp; omega)
    | simp

/-- C9: `_detectar_fallos` yields exactly the set difference
requested − retrieved, and `_descargar_datasets` writes a failure CSV
entry exactly when that difference is non-empty. -/
theorem C9_detectar_fallos (catalogo descargadas : Finset String) :
    (∀ k, k ∈ detectar_fallos catalogo descargadas ↔
      k ∈ catalogo ∧ k ∉ descargadas) ∧
    (registraFallosCSV catalogo descargadas = true ↔
      (detectar_fallos catalogo descargadas).Nonempty) := by
  refine ⟨fun k => Finset.mem_sdiff, ?_⟩
  unfold registraFallosCSV
  simp [Finset.nonempty_iff_ne_empty]

/-- C7: `descargar_tarea` classifies every collaborator behaviour into
exactly one of the four states: zero catalog rows → `sin_resultados`;
rows but zero materialized datasets → `sin_descarga`; an exception in
the `try` block → `error` carrying the exception's description, never
re-raised (the function returns normally on every oracle value);
otherwise → `descargado` with the dataset count in the detail. -/
theorem C7_descargar_tarea (r : ResultadoBusqueda) :
    ((descargar_tarea r).1 = "sin_resultados" ↔
      ∃ despues, r = .filas 0 despues) ∧
    ((descargar_tarea r).1 = "sin_descarga" ↔
      ∃ n, n ≠ 0 ∧ r = .filas n (.datasets 0)) ∧
    ((descargar_tarea r).1 = "error" ↔
      ((∃ d, r = .excepcion d ∧ (descargar_tarea r).2 = d) ∨
       (∃ n d, n ≠ 0 ∧ r = .filas n (.excepcion d) ∧
         (descargar_tarea r).2 = d))) ∧
    ((descargar_tarea r).1 = "descargado" ↔
      (∃ n m, n ≠ 0 ∧ m ≠ 0 ∧ r = .filas n (.datasets m) ∧
        (descargar_tarea r).2 = "Datasets descargados: " ++ toString m)) ∧
    ((descargar_tarea r).1 = "sin_resultados" ∨
     (descargar_tarea r).1 = "sin_descarga" ∨
     (descargar_tarea r).1 = "error" ∨
     (descargar_tarea r).1 = "descargado") := by
  cases r with
  | excepcion d => simp [descargar_tarea]
  | filas n despues =>
    by_cases hn : n = 0
    · subst hn
      cases despues <;> simp [descargar_tarea]
    · cases despues with
      | excepcion d => simp [descargar_tarea, hn]
      | datasets m =>
        by_cases hm : m = 0
        · subst hm; simp [descargar_tarea, hn]
        · obtain ⟨n', rfl⟩ := Nat.exists_eq_succ_of_ne_zero hn
          obtain ⟨m', rfl⟩ := Nat.exists_eq_succ_of_ne_zero hm
          simp [descargar_tarea]
          exact ⟨n', m', ⟨rfl, rfl⟩, rfl⟩

/-- C10: the summary counters partition the processed files — for any
filesystem and discovered list, `mover_nc_cache_a_salida` satisfies
movidos + omitidos + errores = number of files, and `reorganizar_datos`
satisfies movidos + errores = number of files. -/
theorem C10_contadores_particion (salida : Ruta) (fs : Sistema)
    (archivos : List Ruta) :
    ((mover_nc_cache_a_salida salida fs archivos).2.movidos +
      (mover_nc_cache_a_salida salida fs archivos).2.omitidos +
      (mover_nc_cache_a_salida salida fs archivos).2.errores =
      archivos.length) ∧
    ((reorganizar_datos salida fs archivos).2.movidos +
      (reorganizar_datos salida fs archivos).2.errores =
      archivos.length) := by
  constructor
  · have h := mover_suma_fold salida archivos fs ⟨0, 0, 0⟩
    simpa [mover_nc_cache_a_salida] using h
  · have h := reorganizar_suma_fold salida archivos fs ⟨0, 0⟩
    simpa [reorganizar_datos] using h

/-- C4: end-to-end scenario — with exactly the two MIROC6 hindcast
files under a cache root (inside their server-side `sYYYY-rVARIANT`
folders), relocation into `datos` moves both to
`datos/MIROC6/r1i1p1f1/sYYYY/<name>` with no skips or errors, the
files parse to the observed years {1960, 1962}, and the completeness
computation with inferred bounds reports missing = [1961]. -/
theorem C4_escenario_extremo_a_extremo :
    (mover_nc_cache_a_salida ["datos"]
      [(["_cache_esgf", "s1960-r1i1p1f1",
          "pr_Amon_MIROC6_dcppA-hindcast_s1960-r1i1p1f1_gn_196011-197012.nc"], 10),
       (["_cache_esgf", "s1962-r1i1p1f1",
          "pr_Amon_MIROC6_dcppA-hindcast_s1962-r1i1p1f1_gn_196211-197212.nc"], 20)]
      [["_cache_esgf", "s1960-r1i1p1f1",
          "pr_Amon_MIROC6_dcppA-hindcast_s1960-r1i1p1f1_gn_196011-197012.nc"],
       ["_cache_esgf", "s1962-r1i1p1f1",
          "pr_Amon_MIROC6_dcppA-hindcast_s1962-r1i1p1f1_gn_196211-197212.nc"]] =
      ([(["datos", "MIROC6", "r1i1p1f1", "s1962",
           "pr_Amon_MIROC6_dcppA-hindcast_s1962-r1i1p1f1_gn_196211-197212.nc"], 20),
        (["datos", "MIROC6", "r1i1p1f1", "s1960",
           "pr_Amon_MIROC6_dcppA-hindcast_s1960-r1i1p1f1_gn_196011-197012.nc"], 10)],
       ⟨2, 0, 0⟩)) ∧
    extraer_registro
        "pr_Amon_MIROC6_dcppA-hindcast_s1960-r1i1p1f1_gn_196011-197012.nc" =
      some ⟨"MIROC6", "r1i1p1f1", 1960⟩ ∧
    extraer_registro
        "pr_Amon_MIROC6_dcppA-hindcast_s1962-r1i1p1f1_gn_196211-197212.nc" =
      some ⟨"MIROC6", "r1i1p1f1", 1962⟩ ∧
    calcular_faltantes
        [⟨"MIROC6", "r1i1p1f1", 1960⟩, ⟨"MIROC6", "r1i1p1f1", 1962⟩]
        none none =
      .ok [⟨"MIROC6", "r1i1p1f1", 1960, 1962, 1960, 1962, 2, 3, 1, [1961]⟩] := by
  exact ⟨rfl, rfl, rfl, rfl⟩

/-- C1: the relocation loops never overwrite.  (i) A mover step whose
computed destination is already occupied records exactly one skip
(`omitidos`) and returns the filesystem unchanged; (ii) the same step
in `reorganizar_datos` records the skip in its combined
errores/saltados counter and also leaves the filesystem unchanged;
(iii)/(iv) over a whole run of either loop, any path that is not one
of the discovered source files — in particular any pre-existing
destination file — keeps exactly its original content. -/
theorem C1_nunca_sobrescribir :
    (∀ (salida : Ruta) (fs : Sistema) (c : Contadores3)
        (archivo destino : Ruta) (x : Nat),
        destinoDe salida archivo = some destino →
        buscar fs destino = some x →
        paso_mover salida (fs, c) archivo =
          (fs, { c with omitidos := c.omitidos + 1 })) ∧
    (∀ (destRaiz : Ruta) (fs : Sistema) (c : Contadores2)
        (archivo destino : Ruta) (x : Nat),
        destinoDe destRaiz archivo = some destino →
        buscar fs destino = some x →
        paso_reorganizar destRaiz (fs, c) archivo =
          (fs, { c with errores := c.errores + 1 })) ∧
    (∀ (salida : Ruta) (fs : Sistema) (archivos : List Ruta)
        (p : Ruta) (x : Nat),
        p ∉ archivos → buscar fs p = some x →
        buscar (mover_nc_cache_a_salida salida fs archivos).1 p = some x) ∧
    (∀ (destRaiz : Ruta) (fs : Sistema) (archivos : List Ruta)
        (p : Ruta) (x : Nat),
        p ∉ archivos → buscar fs p = some x →
        buscar (reorganizar_datos destRaiz fs archivos).1 p = some x) := by
  refine ⟨?_, ?_, ?_, ?_⟩
  · intro salida fs c archivo destino x hdes hx
    exact paso_mover_omite salida fs c archivo destino x hdes hx
  · intro destRaiz fs c archivo destino x hdes hx
    exact paso_reorganizar_omite destRaiz fs c archivo destino x hdes hx
  · intro salida fs archivos p x hnm hp
    exact mover_fold_conserva salida archivos fs ⟨0, 0, 0⟩ p x hnm hp
  · intro destRaiz fs archivos p x hnm hp
    exact reorganizar_fold_conserva destRaiz archivos fs ⟨0, 0⟩ p x hnm hp

/-- Witness for C1 at a concrete input: a file whose destination is
already occupied is skipped with the filesystem untouched, and a
bystander path keeps its content across a run. -/
theorem C1_nunca_sobrescribir_testigo :
    paso_mover ["datos"]
      ([(["datos", "M", "r1", "s1960", "a_b_M_d.nc"], 7),
        (["cache", "s1960-r1", "a_b_M_d.nc"], 5)], ⟨0, 0, 0⟩)
      ["cache", "s1960-r1", "a_b_M_d.nc"] =
      ([(["datos", "M", "r1", "s1960", "a_b_M_d.nc"], 7),
        (["cache", "s1960-r1", "a_b_M_d.nc"], 5)], ⟨0, 1, 0⟩) ∧
    buscar (mover_nc_cache_a_salida ["datos"] [(["x"], 3)]
        [["cache", "s1960-r1", "a_b_M_d.nc"]]).1 ["x"] = some 3 := by
  constructor
  · exact C1_nunca_sobrescribir.1 ["datos"]
      [(["datos", "M", "r1", "s1960", "a_b_M_d.nc"], 7),
       (["cache", "s1960-r1", "a_b_M_d.nc"], 5)] ⟨0, 0, 0⟩
      ["cache", "s1960-r1", "a_b_M_d.nc"]
      ["datos", "M", "r1", "s1960", "a_b_M_d.nc"] 7 rfl rfl
  · exact C1_nunca_sobrescribir.2.2.1 ["datos"] [(["x"], 3)]
      [["cache", "s1960-r1", "a_b_M_d.nc"]] ["x"] 3 (by decide) rfl

/-- C6 (amended): second-pass behaviour of the relocation engine.  If
every discovered file is initially present and no computed destination
path is itself a discovered file, then running
`mover_nc_cache_a_salida` a second time over the same discovered set
changes nothing: the filesystem is returned unchanged (in particular
nothing is overwritten), the moved count is 0, every parseable file is
counted as skipped (`omitidos`), and the error count equals the number
of unparseable files — zero exactly when all files parse, but not in
general, since unparseable files are recounted as errors on every
run. -/
theorem C6_segunda_pasada (salida : Ruta) (fs : Sistema)
    (archivos : List Ruta)
    (hpres : ∀ f ∈ archivos, buscar fs f ≠ none)
    (hdisj : ∀ f ∈ archivos, ∀ d, destinoDe salida f = some d →
      d ∉ archivos) :
    (mover_nc_cache_a_salida salida
        (mover_nc_cache_a_salida salida fs archivos).1 archivos).1 =
      (mover_nc_cache_a_salida salida fs archivos).1 ∧
    (mover_nc_cache_a_salida salida
        (mover_nc_cache_a_salida salida fs archivos).1 archivos).2 =
      ⟨0,
       (archivos.filter fun f => (destinoDe salida f).isSome).length,
       (archivos.filter fun f => (destinoDe salida f).isNone).length⟩ := by
  have hocc : ∀ f ∈ archivos, ∀ d, destinoDe salida f = some d →
      buscar (mover_nc_cache_a_salida salida fs archivos).1 d ≠ none := by
    intro f hf d hd
    exact mover_destino_queda salida archivos fs ⟨0, 0, 0⟩ f d hd
      (hdisj f hf d hd) (Or.inr ⟨hf, hpres f hf⟩)
  have h := mover_pasada_omite_todo salida archivos
    (mover_nc_cache_a_salida salida fs archivos).1 ⟨0, 0, 0⟩ hocc
  unfold mover_nc_cache_a_salida at h ⊢
  rw [h]
  exact ⟨rfl, by simp⟩

/-- Witness for C6 (amended) at a concrete input: one parseable file,
moved by the first run; the second run moves nothing, errors nowhere,
and counts the file as skipped. -/
theorem C6_segunda_pasada_testigo :
    (mover_nc_cache_a_salida ["datos"]
        (mover_nc_cache_a_salida ["datos"]
          [(["cache", "s1960-r1", "a_b_M_d.nc"], 5)]
          [["cache", "s1960-r1", "a_b_M_d.nc"]]).1
        [["cache", "s1960-r1", "a_b_M_d.nc"]]).1 =
      (mover_nc_cache_a_salida ["datos"]
        [(["cache", "s1960-r1", "a_b_M_d.nc"], 5)]
        [["cache", "s1960-r1", "a_b_M_d.nc"]]).1 ∧
    (mover_nc_cache_a_salida ["datos"]
        (mover_nc_cache_a_salida ["datos"]
          [(["cache", "s1960-r1", "a_b_M_d.nc"], 5)]
          [["cache", "s1960-r1", "a_b_M_d.nc"]]).1
        [["cache", "s1960-r1", "a_b_M_d.nc"]]).2 = ⟨0, 1, 0⟩ :=
  C6_segunda_pasada ["datos"] [(["cache", "s1960-r1", "a_b_M_d.nc"], 5)]
    [["cache", "s1960-r1", "a_b_M_d.nc"]] (by decide) (by decide)

/-- Counterexample to C6 as stated: with a single discovered file whose
name `x.nc` has fewer than 3 underscore fields, the second run over the
same discovered set reports one error (the unparseable file is
recounted), not the zero errors the claim asserts. -/
theorem C6_contraejemplo :
    (mover_nc_cache_a_salida ["datos"]
        (mover_nc_cache_a_salida ["datos"] [(["c", "x.nc"], 0)]
          [["c", "x.nc"]]).1
        [["c", "x.nc"]]).2.errores = 1 := by
  rfl

/-- C2 (amended): for every report row produced by
`calcular_faltantes`, (i) the missing list is disjoint from the
group's observed years, (ii) every year of the expected inclusive
range is observed or missing, (iii) every missing year lies inside the
expected range, and (iv) when both bounds are inferred every observed
year of the group lies inside the expected range — hence
observed ∪ missing = expected holds whenever the observed years are
contained in the expected range, in particular always when the bounds
are inferred; an explicit range that excludes an observed year breaks
the union equality (only there does the original claim fail). -/
theorem C2_union_disjuncion (registros : List Registro)
    (ini? fin? : Option Nat) (filas : List Fila)
    (h : calcular_faltantes registros ini? fin? = .ok filas) :
    ∀ fila ∈ filas,
      (∀ y ∈ fila.faltantes,
        (⟨fila.modelo, fila.ensamble, y⟩ : Registro) ∉ registros) ∧
      (∀ y, fila.anioIniEsperado ≤ y → y ≤ fila.anioFinEsperado →
        (⟨fila.modelo, fila.ensamble, y⟩ : Registro) ∈ registros ∨
          y ∈ fila.faltantes) ∧
      (∀ y ∈ fila.faltantes,
        fila.anioIniEsperado ≤ y ∧ y ≤ fila.anioFinEsperado) ∧
      (ini? = none → fin? = none →
        ∀ y, (⟨fila.modelo, fila.ensamble, y⟩ : Registro) ∈ registros →
          fila.anioIniEsperado ≤ y ∧ y ≤ fila.anioFinEsperado) := by
  intro fila hf
  unfold calcular_faltantes at h
  obtain ⟨k, hk, hfk⟩ :=
    procesarClaves_ok registros ini? fin? (clavesDe registros) filas h fila hf
  obtain ⟨minDet, maxDet, hmin, hmax, hm, he, hini, hfin, hle, hfal⟩ :=
    filaDe_ok registros ini? fin? k fila hfk
  refine ⟨?_, ?_, ?_, ?_⟩
  · intro y hy hmem
    rw [hfal, List.mem_filter] at hy
    rw [hm, he] at hmem
    have hobs : y ∈ aniosDe registros k.1 k.2 := (mem_aniosDe _ _ _ _).mpr hmem
    simp [hobs] at hy
  · intro y h1 h2
    by_cases hobs : (⟨fila.modelo, fila.ensamble, y⟩ : Registro) ∈ registros
    · exact Or.inl hobs
    · right
      rw [hfal, List.mem_filter]
      constructor
      · rw [List.mem_range'_1]
        omega
      · have hno : y ∉ aniosDe registros k.1 k.2 := by
          intro hmem
          exact hobs (by rw [hm, he]; exact (mem_aniosDe _ _ _ _).mp hmem)
        simp [hno]
  · intro y hy
    rw [hfal, List.mem_filter, List.mem_range'_1] at hy
    omega
  · intro hino hfino y hmem
    subst hino; subst hfino
    rw [hm, he] at hmem
    have hobs : y ∈ aniosDe registros k.1 k.2 := (mem_aniosDe _ _ _ _).mpr hmem
    have h1 := (minimoDe_spec _ minDet hmin).2 y hobs
    have h2 := (maximoDe_spec _ maxDet hmax).2 y hobs
    rw [hini, hfin]
    exact ⟨h1, h2⟩

/-- Witness for C2 (amended): with observed years {1960, 1962} and
inferred bounds, 1961 is reported missing and indeed is not observed. -/
theorem C2_union_disjuncion_testigo :
    (⟨"M", "e", 1961⟩ : Registro) ∉
      [(⟨"M", "e", 1960⟩ : Registro), ⟨"M", "e", 1962⟩] :=
  (C2_union_disjuncion [⟨"M", "e", 1960⟩, ⟨"M", "e", 1962⟩] none none
      [⟨"M", "e", 1960, 1962, 1960, 1962, 2, 3, 1, [1961]⟩] rfl
      ⟨"M", "e", 1960, 1962, 1960, 1962, 2, 3, 1, [1961]⟩
      (List.mem_singleton.mpr rfl)).1 1961 (by decide)

/-- Counterexample to C2 as stated: with explicit bounds 1960..1961
and observed years {1960, 1975}, the produced row has missing list
[1961], but the observed year 1975 belongs neither to the missing list
nor to the expected range — so observed ∪ missing ≠ expected range. -/
theorem C2_contraejemplo :
    calcular_faltantes [⟨"M", "e", 1960⟩, ⟨"M", "e", 1975⟩]
        (some 1960) (some 1961) =
      .ok [⟨"M", "e", 1960, 1975, 1960, 1961, 2, 2, 1, [1961]⟩] ∧
    (⟨"M", "e", 1975⟩ : Registro) ∈
      [(⟨"M", "e", 1960⟩ : Registro), ⟨"M", "e", 1975⟩] ∧
    (1975 : Nat) ∉ ([1961] : List Nat) ∧
    ¬ (1960 ≤ (1975 : Nat) ∧ (1975 : Nat) ≤ 1961) := by
  exact ⟨rfl, by decide, by decide, by decide⟩

/-- C5 (amended): for every non-empty observation list, explicit
bounds with `fin < ini` make `calcular_faltantes` raise the
`ValueError` naming the offending group's model and the offending
bounds — it never returns a row list.  (The empty observation list is
the one exception, see the counterexample: with no groups the loop
body never runs and an empty result is returned.) -/
theorem C5_rango_invertido (registros : List Registro) (ini fin : Nat)
    (hne : registros ≠ []) (hlt : fin < ini) :
    ∃ m e, (m, e) ∈ clavesDe registros ∧
      calcular_faltantes registros (some ini) (some fin) =
        .error (mensajeRangoInvalido m ini fin) := by
  have hknil : clavesDe registros ≠ [] := by
    cases registros with
    | nil => exact absurd rfl hne
    | cons r resto =>
      intro hempty
      have hmem : (r.modelo, r.ensamble) ∈ clavesDe (r :: resto) :=
        (mem_clavesDe _ _).mpr ⟨r, List.mem_cons_self _ _, rfl⟩
      rw [hempty] at hmem
      exact List.not_mem_nil _ hmem
  rcases hk : clavesDe registros with _ | ⟨k, ks⟩
  · exact absurd hk hknil
  · have hkmem : k ∈ clavesDe registros := by
      rw [hk]; exact List.mem_cons_self _ _
    obtain ⟨r', hr', hrk⟩ := (mem_clavesDe registros k).mp hkmem
    have hanio : r'.anio ∈ aniosDe registros k.1 k.2 := by
      rw [mem_aniosDe]
      have h1 : k.1 = r'.modelo := by rw [← hrk]
      have h2 : k.2 = r'.ensamble := by rw [← hrk]
      rw [h1, h2]
      exact hr'
    obtain ⟨minD, hmin⟩ :=
      minimoDe_isSome_of_ne_nil _ (List.ne_nil_of_mem hanio)
    obtain ⟨maxD, hmax⟩ :=
      maximoDe_isSome_of_ne_nil _ (List.ne_nil_of_mem hanio)
    refine ⟨k.1, k.2, ?_, ?_⟩
    · rw [Prod.mk.eta]
      exact List.mem_cons_self _ _
    · unfold calcular_faltantes
      rw [hk]
      unfold procesarClaves
      have hfila : filaDe registros (some ini) (some fin) k =
          .error (mensajeRangoInvalido k.1 ini fin) := by
        unfold filaDe
        rw [hmin, hmax]
        dsimp only
        simp only [Option.getD_some]
        rw [if_pos hlt]
      rw [hfila]

/-- Witness for C5 (amended) at a concrete input: one record, explicit
bounds 5 > 3 — the run aborts with the `ValueError`. -/
theorem C5_rango_invertido_testigo :
    ∃ m e, (m, e) ∈ clavesDe [⟨"M", "e", 2000⟩] ∧
      calcular_faltantes [⟨"M", "e", 2000⟩] (some 5) (some 3) =
        .error (mensajeRangoInvalido m 5 3) :=
  C5_rango_invertido [⟨"M", "e", 2000⟩] 5 3 (by decide) (by decide)

/-- Counterexample to C5 as stated: over the empty observation
sequence, inverted explicit bounds do not raise — the function returns
the empty row list, because the per-group loop never executes. -/
theorem C5_contraejemplo :
    calcular_faltantes [] (some 5) (some 3) = .ok [] := rfl

/-- The member-folder pattern is anchored: a successful match spans the
whole (newline-stripped) segment, which is exactly the year group, the
hyphen, and the ensemble group — a match on a proper substring of a
segment is impossible. -/
theorem esMemberCarpeta_abarca (s y ens : String)
    (h : esMemberCarpeta? s = some (y, ens)) :
    quitarNewlineFinal s.toList = y.toList ++ '-' :: ens.toList := by
  unfold esMemberCarpeta? at h
  split at h
  · rename_i a b c d e' resto heq
    split at h
    · injection h with h
      rw [Prod.mk.injEq] at h
      obtain ⟨h1, h2⟩ := h
      subst h1
      subst h2
      rw [heq]
      rfl
    · exact Option.noConfusion h
  · exact Option.noConfusion h

/-- What a successful `extraer_registro` is made of: the name matched
the 7-field pattern, the year comes from the unanchored
`s` + 4-digit search inside the member field, and the ensemble is the
member text after its first hyphen. -/
theorem extraer_registro_caracterizacion (nombre : String) (r : Registro)
    (h : extraer_registro nombre = some r) :
    ∃ mn, matchNombreCMIP6 nombre = some mn ∧ r.modelo = mn.source ∧
      buscarAnioMember mn.member.toList = some r.anio ∧
      r.ensamble = despuesDePrimerGuion mn.member := by
  unfold extraer_registro at h
  rcases hm : matchNombreCMIP6 nombre with _ | mn <;> rw [hm] at h <;>
    dsimp only at h
  · exact Option.noConfusion h
  · rcases ha : buscarAnioMember mn.member.toList with _ | anio <;>
      rw [ha] at h <;> dsimp only at h
    · exact Option.noConfusion h
    · injection h with h
      subst h
      exact ⟨mn, rfl, rfl, ha, rfl⟩

/-- C3 (amended): (i) the path-based extractor returns the groups of
the first component of the reversed path (the filename itself first,
then the nearest ancestor, and so on) that the anchored pattern
`^s(\d{4})-(r.+)$` matches, and `none` when no component matches;
(ii) that pattern is anchored — a match always spans the entire
segment, so a substring occurrence inside a longer segment never
yields an identity from the path scan; (iii) the filename-based
extractor `extraer_registro`, however, does not require the anchored
pattern on the member field: it takes the year from the first
unanchored `s` + 4-digit occurrence inside the member field and the
ensemble from the member text after its first hyphen (so a member
field in which `sYYYY` occurs only as a proper substring still yields
an identity, and the member field is not consulted by the path-based
extractor at all — the two disagree with the claim's single preference
order). -/
theorem C3_identidad_member :
    (∀ (partes : List String) (y ens : String),
        extraer_subexp_y_ensamble_desde_ruta partes = some (y, ens) ↔
          ∃ antes seg despues, partes.reverse = antes ++ seg :: despues ∧
            esMemberCarpeta? seg = some (y, ens) ∧
            ∀ q ∈ antes, esMemberCarpeta? q = none) ∧
    (∀ (s y ens : String), esMemberCarpeta? s = some (y, ens) →
        quitarNewlineFinal s.toList = y.toList ++ '-' :: ens.toList) ∧
    (∀ (nombre : String) (r : Registro), extraer_registro nombre = some r →
        ∃ mn, matchNombreCMIP6 nombre = some mn ∧ r.modelo = mn.source ∧
          buscarAnioMember mn.member.toList = some r.anio ∧
          r.ensamble = despuesDePrimerGuion mn.member) := by
  refine ⟨?_, ?_, ?_⟩
  · intro partes y ens
    unfold extraer_subexp_y_ensamble_desde_ruta
    exact List.findSome?_eq_some_iff
  · intro s y ens h
    exact esMemberCarpeta_abarca s y ens h
  · intro nombre r h
    exact extraer_registro_caracterizacion nombre r h

/-- Witness for C3 (amended) at concrete inputs: the nearest matching
ancestor wins in the path scan, an anchored match spans its whole
segment, and a concrete `extraer_registro` result decomposes as
described. -/
theorem C3_identidad_member_testigo :
    (∃ antes seg despues,
        (["s1970-r9", "s1960-r1i1p1f1", "x.nc"] : List String).reverse =
          antes ++ seg :: despues ∧
        esMemberCarpeta? seg = some ("s1960", "r1i1p1f1") ∧
        ∀ q ∈ antes, esMemberCarpeta? q = none) ∧
    quitarNewlineFinal "s1960-r1i1p1f1".toList =
      "s1960".toList ++ '-' :: "r1i1p1f1".toList ∧
    (∃ mn, matchNombreCMIP6
        "pr_Amon_MIROC6_dcppA-hindcast_s1960-r1i1p1f1_gn_196011-197012.nc" =
          some mn ∧
      (⟨"MIROC6", "r1i1p1f1", 1960⟩ : Registro).modelo = mn.source ∧
      buscarAnioMember mn.member.toList =
        some (⟨"MIROC6", "r1i1p1f1", 1960⟩ : Registro).anio ∧
      (⟨"MIROC6", "r1i1p1f1", 1960⟩ : Registro).ensamble =
        despuesDePrimerGuion mn.member) :=
  ⟨(C3_identidad_member.1 ["s1970-r9", "s1960-r1i1p1f1", "x.nc"]
      "s1960" "r1i1p1f1").mp rfl,
   C3_identidad_member.2.1 "s1960-r1i1p1f1" "s1960" "r1i1p1f1" rfl,
   C3_identidad_member.2.2
     "pr_Amon_MIROC6_dcppA-hindcast_s1960-r1i1p1f1_gn_196011-197012.nc"
     ⟨"MIROC6", "r1i1p1f1", 1960⟩ rfl⟩

/-- Counterexample to C3 as stated: for the filename whose member field
is `xs1960-r1i1p1f1`, no candidate (member field or path segment)
fully matches the anchored pattern — the claim's own candidate scan
returns nothing — yet `extraer_registro` still derives the identity
(1960, r1i1p1f1) from the substring `s1960`, so a non-spanning
substring match does yield an identity and the per-file outcome is not
an error. -/
theorem C3_contraejemplo :
    extract_member_identity_spec
        ["cache",
         "pr_Amon_MIROC6_dcppA-hindcast_xs1960-r1i1p1f1_gn_196011-197012.nc"] =
      none ∧
    extraer_registro
        "pr_Amon_MIROC6_dcppA-hindcast_xs1960-r1i1p1f1_gn_196011-197012.nc" =
      some ⟨"MIROC6", "r1i1p1f1", 1960⟩ :=
  ⟨rfl, rfl⟩

end DescargarDatos
